import Mathlib

/-!
Verification development for the streaming tool-call orchestration core of the
AI writing-assistant repository.  The definitions below are a shallow embedding
of the TypeScript source: the `GeminiResponseHandler` stream-processing state
machine, the `OpenAIAgent` conversation orchestration (web search executor,
conversation history, tool-call follow-up pass), and the agent registry route
handlers.  Machine-level effects (chat-transport calls, indicator events,
callback invocations) are reified as an explicit effect trace so that the
observable behaviour of each code path can be stated and proved.
-/

/-! ## Stream frames (chunks of the model streaming API) -/

/-- Finish reason carried by a streamed choice (`finish_reason` field). -/
inductive FinishReason where
  | stop
  | tool_calls
  | other
deriving DecidableEq, Repr

/-- One incremental tool-call fragment (`choice.delta.tool_calls[0]`):
optional id, optional function name, optional argument-text chunk. -/
structure ToolCallDelta where
  id : Option String
  name : Option String
  args : Option String
deriving DecidableEq, Repr

/-- One streamed choice: `delta.tool_calls`, `delta.content`, `finish_reason`. -/
structure Choice where
  toolCalls : List ToolCallDelta
  content : Option String
  finishReason : Option FinishReason
deriving DecidableEq, Repr

/-- One stream chunk together with the wall-clock instant (`Date.now()`) at
which the handler processes it. -/
structure Chunk where
  choices : List Choice
  now : Nat
deriving DecidableEq, Repr

/-! ## Observable effects of the handler -/

/-- The `ai_state` values sent on `ai_indicator.update` events. -/
inductive AIState where
  | thinking
  | external_sources
  | generating
  | done
  | error
deriving DecidableEq, Repr

/-- Externally observable side effects of the response handler: a text update
of the outbound chat message (`chatClient.partialUpdateMessage`), an indicator
event (`channel.sendEvent` with `ai_indicator.update`), the completion
callback `onComplete`, the tool-call delegation callback `onToolCall`, and the
`dispose` call (unsubscribe + `onDispose`). -/
inductive Effect where
  | updateText (text : String)
  | indicator (state : AIState)
  | completeCallback (text : String)
  | toolCallCallback (name : String) (args : String) (callId : String)
  | disposeCallback
deriving DecidableEq, Repr

/-- Whether an effect is a tool-call delegation. -/
def Effect.isToolCb : Effect → Bool
  | Effect.toolCallCallback _ _ _ => true
  | _ => false

/-! ## Handler state (fields of `GeminiResponseHandler`) -/

structure HandlerState where
  message_text : String
  chunk_counter : Nat
  is_done : Bool
  last_update_time : Nat
  tool_call_buffer : String
  current_tool_name : String
  current_tool_call_id : String
  is_tool_call : Bool
deriving DecidableEq, Repr

/-- Field values at handler construction. -/
def initialHandlerState : HandlerState :=
  { message_text := ""
    chunk_counter := 0
    is_done := false
    last_update_time := 0
    tool_call_buffer := ""
    current_tool_name := ""
    current_tool_call_id := ""
    is_tool_call := false }

/-- Handler configuration: `parse` embeds `JSON.parse` applied to the
argument buffer (`none` = the parse throws), `hasToolCall` records whether the
optional `onToolCall` constructor argument was supplied. -/
structure HandlerCfg where
  parse : String → Option String
  hasToolCall : Bool

/-- Text appended to the visible message by `handleStopGenerating`. -/
def stopMarker : String := "\n\n*[Generation stopped by user]*"

/-- Generic apology used by `handleError` when no text was accumulated. -/
def apologyText : String :=
  "Sorry, I encountered an error processing your message. Please try again."

/-- `updateMessage`: text update of the outbound message, a no-op once the
handler is done. -/
def updateMessage (st : HandlerState) : List Effect :=
  if st.is_done then [] else [Effect.updateText st.message_text]

/-- `finishMessage`: normal finalization.  Guarded by the `is_done` flag;
writes the accumulated text, sends the DONE indicator, invokes `onComplete`
with the final text, then disposes. -/
def finishMessage (st : HandlerState) : HandlerState × List Effect :=
  if st.is_done then (st, [])
  else
    ({ st with is_done := true },
     [Effect.updateText st.message_text,
      Effect.indicator AIState.done,
      Effect.completeCallback st.message_text,
      Effect.disposeCallback])

/-- `handleError`: error finalization.  Guarded by the `is_done` flag; sends
the ERROR indicator and writes the accumulated text, or the generic apology if
none was accumulated (JS `this.message_text || apology`), then disposes. -/
def handleError (st : HandlerState) : HandlerState × List Effect :=
  if st.is_done then (st, [])
  else
    ({ st with is_done := true },
     [Effect.indicator AIState.error,
      Effect.updateText (if st.message_text = "" then apologyText else st.message_text),
      Effect.disposeCallback])

/-- A cancellation event (`ai_indicator.stop`) carries a conversation id and a
message id. -/
structure StopEvent where
  cid : String
  message_id : String
deriving DecidableEq, Repr

/-- Identity of the outbound chat message owned by the handler. -/
structure MsgRef where
  cid : String
  id : String
deriving DecidableEq, Repr

/-- `handleStopGenerating`: ignores events whose ids do not both match; on a
match it sets `is_done`, writes the accumulated text followed by the stop
marker, sends the DONE indicator and disposes.  Note: unlike `finishMessage`
and `handleError`, the source does not check `is_done` first. -/
def handleStopGenerating (msg : MsgRef) (st : HandlerState) (ev : StopEvent) :
    HandlerState × List Effect :=
  if ev.cid ≠ msg.cid ∨ ev.message_id ≠ msg.id then (st, [])
  else
    ({ st with is_done := true },
     [Effect.updateText (st.message_text ++ stopMarker),
      Effect.indicator AIState.done,
      Effect.disposeCallback])

/-! ## The `run` loop, phase by phase -/

/-- Tool-call fragment processing inside the loop body: records the call id
and name (sending the EXTERNAL_SOURCES indicator when the name arrives) and
appends the argument chunk to the accumulator. -/
def toolDeltaPhase (st : HandlerState) (choice : Choice) : HandlerState × List Effect :=
  match choice.toolCalls.head? with
  | none => (st, [])
  | some tc =>
    let sA := { st with is_tool_call := true }
    let sB := match tc.id with
      | some i => { sA with current_tool_call_id := i }
      | none => sA
    let (sC, eC) := match tc.name with
      | some n => ({ sB with current_tool_name := n },
                   [Effect.indicator AIState.external_sources])
      | none => (sB, ([] : List Effect))
    let sD := match tc.args with
      | some a => { sC with tool_call_buffer := sC.tool_call_buffer ++ a }
      | none => sC
    (sD, eC)

/-- Plain-content processing inside the loop body: appends to the text buffer,
bumps the chunk counter, and applies the debounced message update (update when
more than 100ms elapsed since the last update, or when the cumulative chunk
counter is a multiple of 5). -/
def contentPhase (st : HandlerState) (choice : Choice) (now : Nat) :
    HandlerState × List Effect :=
  match choice.content with
  | none => (st, [])
  | some s =>
    if now - st.last_update_time > 100 ∨ (st.chunk_counter + 1) % 5 = 0 then
      ({ st with message_text := st.message_text ++ s,
                 chunk_counter := st.chunk_counter + 1,
                 last_update_time := now },
       updateMessage { st with message_text := st.message_text ++ s,
                               chunk_counter := st.chunk_counter + 1 })
    else ({ st with message_text := st.message_text ++ s,
                    chunk_counter := st.chunk_counter + 1 }, [])

/-- Executable model of the JS `String.prototype.trim` used on the argument
buffer: strip leading and trailing whitespace. -/
def jsTrim (s : String) : String :=
  String.mk (((s.data.dropWhile Char.isWhitespace).reverse.dropWhile Char.isWhitespace).reverse)

/-- Loop control resulting from one chunk: continue, `break`, or `return`. -/
inductive LoopControl where
  | next
  | brk
  | ret
deriving DecidableEq, Repr

/-- Finish-reason processing inside the loop body, transcribed from the
source: `stop` finalizes normally and breaks; `tool_calls` parses the
accumulated buffer when the recorded tool is `web_search` and an `onToolCall`
callback exists (empty or unparseable buffer throws into `handleError`),
delegates and returns; with a recorded tool name but no callback it finalizes
normally; otherwise it just breaks. -/
def finishPhase (cfg : HandlerCfg) (st : HandlerState) (choice : Choice) :
    HandlerState × List Effect × LoopControl :=
  if choice.finishReason = some FinishReason.stop then
    let r := finishMessage st
    (r.1, r.2, LoopControl.brk)
  else if choice.finishReason = some FinishReason.tool_calls then
    if st.current_tool_name = "web_search" ∧ cfg.hasToolCall = true then
      if jsTrim st.tool_call_buffer = "" then
        let r := handleError st
        (r.1, r.2, LoopControl.ret)
      else
        match cfg.parse st.tool_call_buffer with
        | some a =>
          (st, [Effect.toolCallCallback st.current_tool_name a st.current_tool_call_id,
                Effect.disposeCallback], LoopControl.ret)
        | none =>
          let r := handleError st
          (r.1, r.2, LoopControl.ret)
    else if st.current_tool_name ≠ "" ∧ cfg.hasToolCall = false then
      let r := finishMessage st
      (r.1, r.2, LoopControl.brk)
    else (st, [], LoopControl.brk)
  else (st, [], LoopControl.next)

/-- One iteration of the `for await` loop: break immediately when already
done; skip chunks with no choice; otherwise record the finish reason, process
tool-call fragments, process content, then act on the finish reason. -/
def processChunk (cfg : HandlerCfg) (st : HandlerState) (lastFin : Option FinishReason)
    (c : Chunk) : HandlerState × Option FinishReason × List Effect × LoopControl :=
  if st.is_done then (st, lastFin, [], LoopControl.brk)
  else
    match c.choices.head? with
    | none => (st, lastFin, [], LoopControl.next)
    | some choice =>
      let lf1 := match choice.finishReason with
        | some r => some r
        | none => lastFin
      let p1 := toolDeltaPhase st choice
      let p2 := contentPhase p1.1 choice c.now
      let p3 := finishPhase cfg p2.1 choice
      (p3.1, lf1, p1.2 ++ p2.2 ++ p3.2.1, p3.2.2)

/-- How the loop ended: frames exhausted, `break`, or `return`. -/
inductive ExitStatus where
  | finished
  | broke
  | returned
deriving DecidableEq, Repr

/-- The frame-consumption loop of `run`. -/
def runLoop (cfg : HandlerCfg) :
    HandlerState → Option FinishReason → List Chunk →
    HandlerState × Option FinishReason × List Effect × ExitStatus
  | st, lf, [] => (st, lf, [], ExitStatus.finished)
  | st, lf, c :: cs =>
    match processChunk cfg st lf c with
    | (st1, lf1, e1, LoopControl.next) =>
      let r := runLoop cfg st1 lf1 cs
      (r.1, r.2.1, e1 ++ r.2.2.1, r.2.2.2)
    | (st1, lf1, e1, LoopControl.brk) => (st1, lf1, e1, ExitStatus.broke)
    | (st1, lf1, e1, LoopControl.ret) => (st1, lf1, e1, ExitStatus.returned)

/-- The code after the loop in `run`: a late tool-call completion is parsed
and delegated (or fails into `handleError`); a tool call that was detected but
never processed is failed into `handleError` unless the handler is already
finalized. -/
def afterLoop (cfg : HandlerCfg) (st : HandlerState) (lastFin : Option FinishReason) :
    HandlerState × List Effect :=
  if st.is_tool_call = true ∧ lastFin = some FinishReason.tool_calls ∧
     st.current_tool_name = "web_search" ∧ cfg.hasToolCall = true then
    if jsTrim st.tool_call_buffer = "" then handleError st
    else
      match cfg.parse st.tool_call_buffer with
      | some a =>
        (st, [Effect.toolCallCallback st.current_tool_name a st.current_tool_call_id,
              Effect.disposeCallback])
      | none => handleError st
  else if st.is_tool_call = true ∧ st.is_done = false then handleError st
  else (st, [])

/-- `run` starting from an arbitrary handler state: the loop, then (unless a
`return` statement fired) the after-loop checks. -/
def runFrom (cfg : HandlerCfg) (st : HandlerState) (lf : Option FinishReason)
    (chunks : List Chunk) : HandlerState × List Effect :=
  match runLoop cfg st lf chunks with
  | (st1, _, e1, ExitStatus.returned) => (st1, e1)
  | (st1, lf1, e1, _) =>
    let r := afterLoop cfg st1 lf1
    (r.1, e1 ++ r.2)

/-- A full `run` of a freshly constructed handler. -/
def runHandler (cfg : HandlerCfg) (chunks : List Chunk) : HandlerState × List Effect :=
  runFrom cfg initialHandlerState none chunks

/-! ## Web search executor (`OpenAIAgent.performWebSearch`) -/

/-- One search-provider result: `{title, url, content}`. -/
structure SearchResult where
  title : String
  url : String
  content : String
deriving DecidableEq, Repr

/-- The externally determined behaviour of one `performWebSearch` call:
missing credential, non-2xx HTTP response, a parsed JSON body
(`answer` optional, `results` possibly absent), or a thrown exception
(an `Error` with a message, or a non-`Error` value). -/
inductive ProviderBehaviour where
  | missingKey
  | httpError (status : Nat) (body : String)
  | ok (answer : Option String) (results : Option (List SearchResult))
  | exception (msg : Option String)

/-- Formatting of one result line block, 1-based index. -/
def formatResult (index : Nat) (r : SearchResult) : String :=
  "[" ++ toString (index + 1) ++ "] " ++ r.title ++ "\nSource: " ++ r.url ++
    "\n" ++ r.content ++ "\n"

/-- `data.results.map((result, index) => ...)`. -/
def formatResultsAux : Nat → List SearchResult → List String
  | _, [] => []
  | i, r :: rest => formatResult i r :: formatResultsAux (i + 1) rest

/-- The placeholder returned when the Tavily credential is missing. -/
def missingKeyText : String :=
  "Web search is not available (missing Tavily API key). Please configure TAVILY_API_KEY in your environment variables."

/-- The explicit zero-results string. -/
def noResultsText (query : String) : String :=
  "No search results found for \"" ++ query ++
    "\". The query might be too specific or the topic might not have recent information available."

/-- The body of `performWebSearch` inside the `try` block; a thrown exception
is an `Except.error` carrying what `catch` will observe. -/
def performWebSearchBody (query : String) (env : ProviderBehaviour) :
    Except (Option String) String :=
  match env with
  | ProviderBehaviour.missingKey => Except.ok missingKeyText
  | ProviderBehaviour.httpError status body =>
    Except.ok ("Web search failed: " ++ toString status ++ " - " ++ body)
  | ProviderBehaviour.ok answer results =>
    match results with
    | some rs =>
      if rs.length > 0 then
        let searchResults := String.intercalate "\n" (formatResultsAux 0 rs)
        let fullResponse := "Found " ++ toString rs.length ++ " search results for \"" ++
          query ++ "\":\n\n" ++ searchResults
        Except.ok (match answer with
          | some a => if a ≠ "" then "Quick Answer: " ++ a ++ "\n\n" ++ fullResponse
                      else fullResponse
          | none => fullResponse)
      else Except.ok (noResultsText query)
    | none => Except.ok (noResultsText query)
  | ProviderBehaviour.exception m => Except.error m

/-- `performWebSearch`: the body wrapped in the `try`/`catch`; the catch
formats the exception into a descriptive string, so the caller only ever sees
`Except.ok`. -/
def performWebSearch (query : String) (env : ProviderBehaviour) :
    Except (Option String) String :=
  match performWebSearchBody query env with
  | Except.ok s => Except.ok s
  | Except.error m =>
    Except.ok ("Error performing web search for \"" ++ query ++ "\": " ++
      (match m with | some s => s | none => "Unknown error"))

/-! ## Conversation history (`OpenAIAgent.conversationHistory`) -/

/-- Roles used in the conversation history. -/
inductive Role where
  | system
  | user
  | assistant
deriving DecidableEq, Repr

structure ChatMessage where
  role : Role
  content : String
deriving DecidableEq, Repr

/-- Appending the inbound user message (`handleMessage`). -/
def pushUser (h : List ChatMessage) (m : String) : List ChatMessage :=
  h ++ [{ role := Role.user, content := m }]

/-- In-place rewrite of the system prompt when the inbound message carries a
`writingTask` (`this.conversationHistory[0].content = ...`): only the content
of element 0 changes. -/
def applyWritingTask (h : List ChatMessage) (newPrompt : String) : List ChatMessage :=
  match h with
  | [] => []
  | m0 :: rest => { m0 with content := newPrompt } :: rest

/-- The synthetic system-role entry carrying the tool result
(`handleToolCall`). -/
def searchResultsEntry (query toolResult : String) : ChatMessage :=
  { role := Role.system
    content := "[Web Search Results for \"" ++ query ++ "\"]\n\n" ++ toolResult ++
      "\n\n[End of Search Results]\n\nPlease provide a comprehensive answer to the user's question based on these search results." }

/-- Appending the tool result into history (`handleToolCall`). -/
def pushSearchResults (h : List ChatMessage) (query toolResult : String) :
    List ChatMessage :=
  h ++ [searchResultsEntry query toolResult]

/-- The history cap applied inside the `onComplete` callback: when the length
exceeds 21, keep element 0 followed by the most recent 20 entries
(`[history[0], ...history.slice(-20)]`). -/
def capHistory (h : List ChatMessage) : List ChatMessage :=
  if h.length > 21 then
    match h with
    | [] => []
    | m0 :: _ => m0 :: h.drop (h.length - 20)
  else h

/-- The `onComplete` callback: append the assistant turn, then cap. -/
def onCompleteAppend (h : List ChatMessage) (assistantMessage : String) :
    List ChatMessage :=
  capHistory (h ++ [{ role := Role.assistant, content := assistantMessage }])

/-! ## Agent turn orchestration (`handleMessage` / `handleToolCall`) -/

/-- A model streaming completion request as issued by the agent; only whether
tool declarations were attached matters here. -/
structure ModelRequest where
  hasTools : Bool
deriving DecidableEq, Repr

/-- The first tool-call delegation in an effect trace, if any. -/
def extractToolCall (effs : List Effect) : Option (String × String × String) :=
  match effs.find? Effect.isToolCb with
  | some (Effect.toolCallCallback n a i) => some (n, a, i)
  | _ => none

/-- Result of one user turn: requests issued in order, the `hasToolCall` flag
of the second handler when one was constructed, and the concatenated handler
effect trace. -/
structure TurnResult where
  requests : List ModelRequest
  secondHandlerHasToolCb : Option Bool
  effects : List Effect
deriving Repr

/-- One user turn of `handleMessage`: the first pass issues a request with the
`web_search` tool declared and runs a handler whose `onToolCall` delegates to
`handleToolCall`; when the first pass delegates a tool call, `handleToolCall`
issues exactly one follow-up request with no tools and runs a second handler
constructed without an `onToolCall` callback. -/
def agentTurn (parse : String → Option String) (stream1 stream2 : List Chunk) :
    TurnResult :=
  let firstRun := runHandler { parse := parse, hasToolCall := true } stream1
  match extractToolCall firstRun.2 with
  | none =>
    { requests := [{ hasTools := true }]
      secondHandlerHasToolCb := none
      effects := firstRun.2 }
  | some _ =>
    let secondRun := runHandler { parse := parse, hasToolCall := false } stream2
    { requests := [{ hasTools := true }, { hasTools := false }]
      secondHandlerHasToolCb := some false
      effects := firstRun.2 ++ secondRun.2 }

/-! ## Agent registry routes (`/start-ai-agent`, `/stop-ai-agent`, `/agent-status`) -/

/-- Key derivation shared by the three endpoints:
`"ai-bot-" + channel_id.replace(/[!]/g, "")`. -/
def stripBangs (s : String) : String :=
  String.mk (s.data.filter (fun ch => ch ≠ '!'))

def deriveAgentKey (channel_id : String) : String :=
  "ai-bot-" ++ stripBangs channel_id

/-- Interleaved `startAgent` executions for one registry key, small-step.
Each request advances through: the atomic check-then-mark (`has` checks plus
`pendingAiAgents.add`), the awaited initialization (which may fail), the final
install-or-dispose check, and the `finally` block clearing the pending
marker. -/
inductive Outcome where
  | noop
  | failed
  | installed (a : Nat)
  | redundant (a : Nat)
deriving DecidableEq, Repr

inductive ReqPC where
  | idle
  | working
  | created (a : Nat)
  | atFinally (o : Outcome)
  | done (o : Outcome)
deriving DecidableEq, Repr

/-- Registry state for one key plus the program counters of the requests. -/
structure RegSys where
  cache : Option Nat
  pending : Bool
  nextId : Nat
  disposed : List Nat
  reqs : Nat → ReqPC

/-- The initial registry state: nothing cached, nothing pending, all requests
not yet dispatched. -/
def regInit : RegSys :=
  { cache := none, pending := false, nextId := 0, disposed := [], reqs := fun _ => ReqPC.idle }

/-- One cooperative scheduler step of the start-agent route handlers. -/
inductive RegStep : RegSys → RegSys → Prop where
  | checkBusy (s : RegSys) (i : Nat) (h : s.reqs i = ReqPC.idle)
      (hb : s.cache.isSome = true ∨ s.pending = true) :
      RegStep s { s with reqs := Function.update s.reqs i (ReqPC.atFinally Outcome.noop) }
  | checkFree (s : RegSys) (i : Nat) (h : s.reqs i = ReqPC.idle)
      (hc : s.cache = none) (hp : s.pending = false) :
      RegStep s { s with pending := true, reqs := Function.update s.reqs i ReqPC.working }
  | initOk (s : RegSys) (i : Nat) (h : s.reqs i = ReqPC.working) :
      RegStep s { s with nextId := s.nextId + 1,
                         reqs := Function.update s.reqs i (ReqPC.created s.nextId) }
  | initFail (s : RegSys) (i : Nat) (h : s.reqs i = ReqPC.working) :
      RegStep s { s with reqs := Function.update s.reqs i (ReqPC.atFinally Outcome.failed) }
  | finalInstall (s : RegSys) (i : Nat) (a : Nat) (h : s.reqs i = ReqPC.created a)
      (hc : s.cache = none) :
      RegStep s { s with cache := some a,
                         reqs := Function.update s.reqs i (ReqPC.atFinally (Outcome.installed a)) }
  | finalRedundant (s : RegSys) (i : Nat) (a b : Nat) (h : s.reqs i = ReqPC.created a)
      (hc : s.cache = some b) :
      RegStep s { s with disposed := a :: s.disposed,
                         reqs := Function.update s.reqs i (ReqPC.atFinally (Outcome.redundant a)) }
  | clearPending (s : RegSys) (i : Nat) (o : Outcome) (h : s.reqs i = ReqPC.atFinally o) :
      RegStep s { s with pending := false, reqs := Function.update s.reqs i (ReqPC.done o) }

/-- States reachable from the initial registry state. -/
def RegReachable (s : RegSys) : Prop :=
  Relation.ReflTransGen RegStep regInit s

/-- The status endpoint: `connected` when the key is cached, `connecting` when
pending, `disconnected` otherwise (read on the same derived key). -/
def agentStatus (channel_id : String) (cacheKeys pendingKeys : List String) : String :=
  if deriveAgentKey channel_id ∈ cacheKeys then "connected"
  else if deriveAgentKey channel_id ∈ pendingKeys then "connecting"
  else "disconnected"

/-- The stop endpoint removes (and disposes) the entry under the derived key. -/
def stopAgentKeys (channel_id : String) (cacheKeys : List String) : List String :=
  cacheKeys.filter (fun k => k ≠ deriveAgentKey channel_id)

/-! ## Observation helpers and concrete inputs used by the theorems -/

/-- A chunk carrying only incremental text content. -/
def textChunk (p : String × Nat) : Chunk :=
  { choices := [{ toolCalls := [], content := some p.1, finishReason := none }], now := p.2 }

/-- A chunk carrying only a `stop` finish reason. -/
def stopChunk (t : Nat) : Chunk :=
  { choices := [{ toolCalls := [], content := none, finishReason := some FinishReason.stop }], now := t }

/-- A chunk carrying only a `tool_calls` finish reason. -/
def toolFinishChunk (t : Nat) : Chunk :=
  { choices := [{ toolCalls := [], content := none, finishReason := some FinishReason.tool_calls }], now := t }

/-- Concatenation of a list of text fragments in order. -/
def concatTexts : List String → String
  | [] => ""
  | s :: rest => s ++ concatTexts rest

/-- Handler state after the loop has consumed the first `k` frames. -/
def stateAfter (cfg : HandlerCfg) (chunks : List Chunk) (k : Nat) : HandlerState :=
  (runLoop cfg initialHandlerState none (chunks.take k)).1

/-- Per-chunk effect trace of the loop (stops after the chunk on which the
loop breaks or returns). -/
def runTrace (cfg : HandlerCfg) : HandlerState → Option FinishReason → List Chunk → List (List Effect)
  | _, _, [] => []
  | st, lf, c :: cs =>
    match processChunk cfg st lf c with
    | (st1, lf1, e1, LoopControl.next) => e1 :: runTrace cfg st1 lf1 cs
    | (_, _, e1, _) => [e1]

/-- Whether a message-text update was applied on each chunk. -/
def updatedFlags (cfg : HandlerCfg) (chunks : List Chunk) : List Bool :=
  (runTrace cfg initialHandlerState none chunks).map
    (fun effs => effs.any (fun e => match e with | Effect.updateText _ => true | _ => false))

/-- Modelled from the spec's words, for comparison with the code's debounce:
apply an update when at least 100ms elapsed since the last applied update, or
when 5 frames have been buffered since the last applied update. -/
def debounceSpecCondition (elapsedMs framesBuffered : Nat) : Prop :=
  100 ≤ elapsedMs ∨ framesBuffered = 5

instance : DecidablePred fun p : Nat × Nat => debounceSpecCondition p.1 p.2 :=
  fun _ => inferInstanceAs (Decidable (_ ∨ _))

/-- A handler configuration whose parse always fails; used on code paths that
never reach the parse. -/
def cfgDemo : HandlerCfg := { parse := fun _ => none, hasToolCall := true }

/-- Five text frames: updates are applied at frames 1, 2, 3 (over 100ms
elapsed each time) and at frame 5 (cumulative counter divisible by 5), while
frame 5 arrives 20ms after the update at frame 3 with only 2 frames buffered
since it. -/
def demoChunks : List Chunk :=
  [textChunk ("a", 150), textChunk ("b", 300), textChunk ("c", 410),
   textChunk ("d", 420), textChunk ("e", 430)]

/-- A handler state that has already reached its terminal state with some
accumulated text. -/
def stDoneDemo : HandlerState :=
  { initialHandlerState with is_done := true, message_text := "partial answer" }

/-- A second-pass handler configuration: no `onToolCall` callback. -/
def noCbCfg : HandlerCfg := { parse := fun _ => none, hasToolCall := false }

/-- A chunk whose single choice both names the `web_search` tool (no argument
fragments, so the accumulator stays empty) and signals finish-reason
`tool_calls`. -/
def secondPassToolChunk : Chunk :=
  { choices := [{ toolCalls := [{ id := none, name := some "web_search", args := none }],
                  content := none, finishReason := some FinishReason.tool_calls }],
    now := 0 }

/-- A parse function recognizing exactly the buffer "qbuf". -/
def parseDemo : String → Option String :=
  fun s => if s = "qbuf" then some "q" else none

/-- A first-pass stream that accumulates a complete `web_search` call and
signals `tool_calls`. -/
def delegatingStream : List Chunk :=
  [{ choices := [{ toolCalls := [{ id := some "id1", name := some "web_search", args := some "qbuf" }],
                   content := none, finishReason := some FinishReason.tool_calls }],
     now := 0 }]

/-- A 21-entry conversation history: the system prompt plus 20 turns. -/
def demo21 : List ChatMessage :=
  { role := Role.system, content := "p" } ::
    (List.range 20).map (fun i => { role := Role.user, content := toString i })

/-! ## Registry invariant -/

/-- Inductive invariant of the interleaved start-agent executions. -/
def RegInv (s : RegSys) : Prop :=
  (∀ a, s.cache = some a → a < s.nextId) ∧
  (∀ a, a ∈ s.disposed → a < s.nextId) ∧
  (∀ i a, s.reqs i = ReqPC.created a → a < s.nextId) ∧
  (∀ a, s.cache = some a → a ∉ s.disposed) ∧
  (∀ i a b, s.reqs i = ReqPC.created a → s.cache = some b → a ≠ b) ∧
  (∀ i a, s.reqs i = ReqPC.created a → a ∉ s.disposed) ∧
  (∀ i j a b, i ≠ j → s.reqs i = ReqPC.created a → s.reqs j = ReqPC.created b → a ≠ b) ∧
  (∀ i a, s.reqs i = ReqPC.atFinally (Outcome.installed a) ∨
          s.reqs i = ReqPC.done (Outcome.installed a) → s.cache = some a) ∧
  (∀ i a, s.reqs i = ReqPC.atFinally (Outcome.redundant a) ∨
          s.reqs i = ReqPC.done (Outcome.redundant a) →
            a ∈ s.disposed ∧ s.cache ≠ some a ∧ s.cache.isSome = true) ∧
  (s.pending = true → ∃ i, s.reqs i = ReqPC.working ∨
    (∃ a, s.reqs i = ReqPC.created a) ∨ (∃ o, s.reqs i = ReqPC.atFinally o))

/-- First intermediate state of the pending-marker scenario: request 0 has
passed the atomic check and owns the pending marker. -/
def cexS1 : RegSys :=
  { regInit with pending := true, reqs := Function.update regInit.reqs 0 ReqPC.working }

/-- Second intermediate state: request 1 observed the pending marker and took
the no-op branch, reaching its `finally` block. -/
def cexS2 : RegSys :=
  { cexS1 with reqs := Function.update cexS1.reqs 1 (ReqPC.atFinally Outcome.noop) }

/-- Final state: request 1's `finally` block cleared the pending marker while
request 0 is still initializing. -/
def cexS3 : RegSys :=
  { cexS2 with pending := false, reqs := Function.update cexS2.reqs 1 (ReqPC.done Outcome.noop) }

/-- A first-pass handler state with a recorded `web_search` tool call and an
empty argument buffer. -/
def stBadBuf : HandlerState :=
  { initialHandlerState with is_tool_call := true, current_tool_name := "web_search" }

/-! ## Claim C6: the web search executor degrades, never throws -/

/-- Claim C6: for every query string and every search-provider behaviour
(missing credential, non-2xx HTTP response, zero results, network or parse
exception), `performWebSearch` returns a descriptive string and never lets an
exception escape to its caller. -/
theorem webSearch_degrades_never_throws (q : String) (status : Nat) (body : String)
    (answer : Option String) (m : Option String) :
    performWebSearch q ProviderBehaviour.missingKey = Except.ok missingKeyText ∧
    performWebSearch q (ProviderBehaviour.httpError status body) =
      Except.ok ("Web search failed: " ++ toString status ++ " - " ++ body) ∧
    performWebSearch q (ProviderBehaviour.ok answer none) = Except.ok (noResultsText q) ∧
    performWebSearch q (ProviderBehaviour.ok answer (some [])) = Except.ok (noResultsText q) ∧
    performWebSearch q (ProviderBehaviour.exception m) =
      Except.ok ("Error performing web search for \"" ++ q ++ "\": " ++
        (match m with | some s => s | none => "Unknown error")) ∧
    (∀ env, ∃ s, performWebSearch q env = Except.ok s) := by
  refine ⟨rfl, rfl, rfl, rfl, rfl, ?_⟩
  intro env
  cases hb : performWebSearchBody q env with
  | ok s =>
    refine ⟨s, ?_⟩
    unfold performWebSearch
    rw [hb]
  | error e =>
    cases e with
    | none => exact ⟨_, by unfold performWebSearch; rw [hb]⟩
    | some s => exact ⟨_, by unfold performWebSearch; rw [hb]⟩

/-! ## Claim C10: registry key collisions between channel ids differing in "!" -/

/-- Claim C10: all three endpoints derive the key as `ai-bot-` prepended to
the channel id with every `!` deleted, so two channel ids with the same
bang-stripped form share one registry entry: status for one reports the state
of the other, and stopping either removes the shared entry. -/
theorem agentKey_collision (id1 id2 : String) (h : stripBangs id1 = stripBangs id2) :
    deriveAgentKey id1 = deriveAgentKey id2 ∧
    (∀ cacheKeys pendingKeys,
      agentStatus id1 cacheKeys pendingKeys = agentStatus id2 cacheKeys pendingKeys) ∧
    (∀ cacheKeys pendingKeys,
      agentStatus id2 (deriveAgentKey id1 :: cacheKeys) pendingKeys = "connected") ∧
    (∀ cacheKeys, stopAgentKeys id1 cacheKeys = stopAgentKeys id2 cacheKeys) := by
  have hk : deriveAgentKey id1 = deriveAgentKey id2 := by
    unfold deriveAgentKey
    rw [h]
  refine ⟨hk, ?_, ?_, ?_⟩
  · intro cacheKeys pendingKeys
    unfold agentStatus
    rw [hk]
  · intro cacheKeys pendingKeys
    unfold agentStatus
    rw [← hk]
    simp
  · intro cacheKeys
    unfold stopAgentKeys
    rw [hk]

/-- Witness for C10 at concrete colliding channel ids. -/
theorem agentKey_collision_witness :
    ("general!" ≠ "general") ∧
    deriveAgentKey "general!" = deriveAgentKey "general" ∧
    agentStatus "general" [deriveAgentKey "general!"] [] = "connected" ∧
    stopAgentKeys "general!" [deriveAgentKey "general"] =
      stopAgentKeys "general" [deriveAgentKey "general"] := by
  have h := agentKey_collision "general!" "general" (by decide)
  exact ⟨by decide, h.1, h.2.2.1 [] [], h.2.2.2 [deriveAgentKey "general"]⟩

/-! ## Claim C3: idempotency of the finalize paths -/

/-- Counterexample to C3 as stated: on a handler that has already reached its
terminal state (`is_done = true`), a matching cancellation event still applies
a message update, still sends a DONE indicator event, and still disposes —
`handleStopGenerating` has no idempotency guard. -/
theorem finalize_cancel_not_idem :
    (handleStopGenerating { cid := "c1", id := "m1" } stDoneDemo
        { cid := "c1", message_id := "m1" }).2 =
      [Effect.updateText ("partial answer" ++ stopMarker),
       Effect.indicator AIState.done, Effect.disposeCallback] ∧
    (handleStopGenerating { cid := "c1", id := "m1" } stDoneDemo
        { cid := "c1", message_id := "m1" }).2 ≠ [] := by
  constructor
  · rfl
  · decide

/-- Claim C3 (amended): a second invocation of `finishMessage` or
`handleError` after the handler reached its terminal state has no observable
effect and leaves the state unchanged, and no invocation of the cancellation
path ever invokes the completion callback (so history is never appended to
twice); but the cancellation path itself carries no idempotency guard. -/
theorem finalize_guarded (st : HandlerState) (msg : MsgRef) (ev : StopEvent)
    (h : st.is_done = true) :
    finishMessage st = (st, []) ∧
    handleError st = (st, []) ∧
    (∀ t, Effect.completeCallback t ∉ (handleStopGenerating msg st ev).2) := by
  refine ⟨?_, ?_, ?_⟩
  · unfold finishMessage
    rw [h]
    rfl
  · unfold handleError
    rw [h]
    rfl
  · intro t
    unfold handleStopGenerating
    split
    · simp
    · simp

/-- Witness for C3 (amended) at a concrete finalized handler state. -/
theorem finalize_guarded_witness :
    finishMessage stDoneDemo = (stDoneDemo, []) ∧
    Effect.completeCallback "x" ∉
      (handleStopGenerating { cid := "c1", id := "m1" } stDoneDemo
        { cid := "c1", message_id := "m1" }).2 := by
  have h := finalize_guarded stDoneDemo { cid := "c1", id := "m1" }
    { cid := "c1", message_id := "m1" } rfl
  exact ⟨h.1, h.2.2 "x"⟩

/-! ## Claim C4: cancellation semantics -/

/-- Claim C4: a cancellation event matching both the conversation id and the
message id drives the handler to its terminal state, writes the accumulated
text followed by the stop marker, sends the DONE indicator and disposes; an
event failing either id comparison changes nothing; and once the handler is
done, the frame loop processes no further frame (no text change, no effect). -/
theorem cancellation_semantics (msg : MsgRef) (st : HandlerState) (ev : StopEvent)
    (cfg : HandlerCfg) (lf : Option FinishReason) (chunks : List Chunk) :
    (ev.cid = msg.cid ∧ ev.message_id = msg.id →
      handleStopGenerating msg st ev =
        ({ st with is_done := true },
         [Effect.updateText (st.message_text ++ stopMarker),
          Effect.indicator AIState.done, Effect.disposeCallback])) ∧
    (¬(ev.cid = msg.cid ∧ ev.message_id = msg.id) →
      handleStopGenerating msg st ev = (st, [])) ∧
    (st.is_done = true →
      (runLoop cfg st lf chunks).1 = st ∧ (runLoop cfg st lf chunks).2.2.1 = []) := by
  refine ⟨?_, ?_, ?_⟩
  · intro hm
    unfold handleStopGenerating
    rw [if_neg]
    push_neg
    exact ⟨hm.1, hm.2⟩
  · intro hm
    unfold handleStopGenerating
    rw [if_pos]
    rw [not_and_or] at hm
    rcases hm with hm | hm
    · exact Or.inl hm
    · exact Or.inr hm
  · intro hd
    cases chunks with
    | nil => exact ⟨rfl, rfl⟩
    | cons c cs =>
      have hp : processChunk cfg st lf c = (st, lf, [], LoopControl.brk) := by
        unfold processChunk
        rw [hd]
        rfl
      constructor
      · show (runLoop cfg st lf (c :: cs)).1 = st
        unfold runLoop
        rw [hp]
      · show (runLoop cfg st lf (c :: cs)).2.2.1 = []
        unfold runLoop
        rw [hp]

/-- Witness for C4: matching and non-matching events at concrete inputs, and
a done handler ignoring a pending text frame. -/
theorem cancellation_semantics_witness :
    handleStopGenerating { cid := "c0", id := "m0" } initialHandlerState
        { cid := "c0", message_id := "m0" } =
      ({ initialHandlerState with is_done := true },
       [Effect.updateText ("" ++ stopMarker),
        Effect.indicator AIState.done, Effect.disposeCallback]) ∧
    handleStopGenerating { cid := "c0", id := "m0" } initialHandlerState
        { cid := "c0", message_id := "other" } = (initialHandlerState, []) ∧
    (runLoop cfgDemo stDoneDemo none [textChunk ("a", 1)]).2.2.1 = [] := by
  refine ⟨?_, ?_, ?_⟩
  · exact (cancellation_semantics { cid := "c0", id := "m0" } initialHandlerState
      { cid := "c0", message_id := "m0" } cfgDemo none []).1 ⟨rfl, rfl⟩
  · exact (cancellation_semantics { cid := "c0", id := "m0" } initialHandlerState
      { cid := "c0", message_id := "other" } cfgDemo none []).2.1 (by decide)
  · exact ((cancellation_semantics { cid := "c0", id := "m0" } stDoneDemo
      { cid := "c0", message_id := "m0" } cfgDemo none [textChunk ("a", 1)]).2.2 rfl).2

/-! ## Claim C7: the debounced message update -/

/-- Processing a pure text frame: the text and counter advance, and an update
is applied exactly when more than 100ms elapsed since the last applied update
or the incremented cumulative counter is a multiple of 5. -/
theorem processChunk_textChunk (cfg : HandlerCfg) (st : HandlerState)
    (lf : Option FinishReason) (s : String) (t : Nat) (h : st.is_done = false) :
    processChunk cfg st lf (textChunk (s, t)) =
      (if t - st.last_update_time > 100 ∨ (st.chunk_counter + 1) % 5 = 0 then
        ({ st with message_text := st.message_text ++ s,
                   chunk_counter := st.chunk_counter + 1,
                   last_update_time := t },
         lf, [Effect.updateText (st.message_text ++ s)], LoopControl.next)
      else
        ({ st with message_text := st.message_text ++ s,
                   chunk_counter := st.chunk_counter + 1 },
         lf, [], LoopControl.next)) := by
  by_cases hc : t - st.last_update_time > 100 ∨ (st.chunk_counter + 1) % 5 = 0
  · simp only [processChunk, textChunk, toolDeltaPhase, contentPhase, finishPhase,
      updateMessage, h, List.head?_cons, List.head?_nil, hc, if_true]
    rfl
  · simp only [processChunk, textChunk, toolDeltaPhase, contentPhase, finishPhase,
      updateMessage, h, List.head?_cons, List.head?_nil, hc, if_false]
    rfl

/-- Counterexample to C7 as stated: in the five-frame run `demoChunks`,
updates are applied at frames 1, 2, 3 and 5 (see `updatedFlags`); at frame 5
only 20ms have elapsed since the update applied at frame 3 (whose time the
state records) and only 2 frames (4 and 5) were buffered since it, yet the
code applies an update — because the cumulative chunk counter reached 5 — so
the spec's debounce condition is false while the code updates. -/
theorem debounce_cex :
    updatedFlags cfgDemo demoChunks = [true, true, true, false, true] ∧
    (stateAfter cfgDemo demoChunks 4).last_update_time = 410 ∧
    (demoChunks.get? 4).map Chunk.now = some 430 ∧
    ¬ debounceSpecCondition (430 - 410) 2 := by
  refine ⟨by decide, by decide, by decide, ?_⟩
  unfold debounceSpecCondition
  decide

/-- Claim C7 (amended): on a text frame, an update of the outbound message is
applied if and only if strictly more than 100ms elapsed since the last
applied update, or the handler's cumulative text-frame counter (after
incrementing) is a multiple of 5; the counter is global to the run, not a
count of frames buffered since the last applied update. -/
theorem debounce_condition (cfg : HandlerCfg) (st : HandlerState)
    (lf : Option FinishReason) (s : String) (t : Nat) (h : st.is_done = false) :
    (processChunk cfg st lf (textChunk (s, t))).2.2.1 =
      (if t - st.last_update_time > 100 ∨ (st.chunk_counter + 1) % 5 = 0 then
        [Effect.updateText (st.message_text ++ s)]
      else []) ∧
    ((processChunk cfg st lf (textChunk (s, t))).2.2.1 ≠ [] ↔
      (t - st.last_update_time > 100 ∨ (st.chunk_counter + 1) % 5 = 0)) := by
  rw [processChunk_textChunk cfg st lf s t h]
  by_cases hc : t - st.last_update_time > 100 ∨ (st.chunk_counter + 1) % 5 = 0
  · simp [hc]
  · simp [hc]

/-- Witness for C7 (amended) at a concrete state: frame at 430 with last
update at 410 and counter 4 applies an update. -/
theorem debounce_condition_witness :
    (processChunk cfgDemo
        { initialHandlerState with chunk_counter := 4, last_update_time := 410 }
        none (textChunk ("e", 430))).2.2.1 = [Effect.updateText "e"] := by
  have h := (debounce_condition cfgDemo
    { initialHandlerState with chunk_counter := 4, last_update_time := 410 }
    none "e" 430 rfl).1
  rw [h]
  decide

/-! ## Claim C5: error finalization of malformed or unprocessed tool calls -/

/-- Counterexample to C5 as stated: a handler constructed without a tool-call
callback (the second pass) that receives a `web_search` tool-call fragment and
finish-reason `tool_calls` with an empty argument buffer finalizes NORMALLY
(DONE indicator, completion callback) rather than as an error. -/
theorem toolcall_second_pass_cex :
    (runHandler noCbCfg [secondPassToolChunk]).2 =
      [Effect.indicator AIState.external_sources, Effect.updateText "",
       Effect.indicator AIState.done, Effect.completeCallback "", Effect.disposeCallback] ∧
    Effect.indicator AIState.error ∉ (runHandler noCbCfg [secondPassToolChunk]).2 ∧
    (runHandler noCbCfg [secondPassToolChunk]).1.tool_call_buffer = "" := by
  refine ⟨by decide, by decide, by decide⟩

/-- Claim C5 (amended): in a handler that has a tool-call callback, a
`tool_calls` finish with an empty or unparseable buffer (tool `web_search`)
finalizes as an error; when the frame sequence ends with a tool call in
progress, unprocessed and unfinalized, the after-loop fail-safe also
finalizes as an error on an empty or unparseable buffer; a handler without
the callback but with a recorded tool name instead finalizes normally; and
error finalization sends the ERROR indicator and writes the accumulated text
or the generic apology. -/
theorem toolcall_bad_args (cfg : HandlerCfg) (st : HandlerState)
    (lf : Option FinishReason) (t : Nat) (hdone : st.is_done = false) :
    (cfg.hasToolCall = true → st.current_tool_name = "web_search" →
      jsTrim st.tool_call_buffer = "" ∨ cfg.parse st.tool_call_buffer = none →
      processChunk cfg st lf (toolFinishChunk t) =
        ((handleError st).1, some FinishReason.tool_calls, (handleError st).2,
         LoopControl.ret)) ∧
    (st.is_tool_call = true →
      jsTrim st.tool_call_buffer = "" ∨ cfg.parse st.tool_call_buffer = none →
      afterLoop cfg st lf = handleError st) ∧
    (cfg.hasToolCall = false → st.current_tool_name ≠ "" →
      processChunk cfg st lf (toolFinishChunk t) =
        ((finishMessage st).1, some FinishReason.tool_calls, (finishMessage st).2,
         LoopControl.brk)) ∧
    handleError st =
      ({ st with is_done := true },
       [Effect.indicator AIState.error,
        Effect.updateText (if st.message_text = "" then apologyText else st.message_text),
        Effect.disposeCallback]) := by
  refine ⟨?_, ?_, ?_, ?_⟩
  · intro hcb hname hbad
    simp only [processChunk, toolFinishChunk, toolDeltaPhase, contentPhase, finishPhase,
      hdone, List.head?_cons, List.head?_nil, Bool.false_eq_true, if_false]
    simp only [hname, hcb, and_self, if_true, reduceCtorEq, ite_false]
    by_cases ht : jsTrim st.tool_call_buffer = ""
    · simp [ht]
    · have hp : cfg.parse st.tool_call_buffer = none := by
        rcases hbad with hbad | hbad
        · exact absurd hbad ht
        · exact hbad
      simp [ht, hp]
  · intro hitc hbad
    unfold afterLoop
    by_cases h1 : st.is_tool_call = true ∧ lf = some FinishReason.tool_calls ∧
        st.current_tool_name = "web_search" ∧ cfg.hasToolCall = true
    · rw [if_pos h1]
      by_cases ht : jsTrim st.tool_call_buffer = ""
      · rw [if_pos ht]
      · rw [if_neg ht]
        have hp : cfg.parse st.tool_call_buffer = none := by
          rcases hbad with hbad | hbad
          · exact absurd hbad ht
          · exact hbad
        rw [hp]
    · rw [if_neg h1, if_pos ⟨hitc, hdone⟩]
  · intro hcb hname
    simp only [processChunk, toolFinishChunk, toolDeltaPhase, contentPhase, finishPhase,
      hdone, List.head?_cons, List.head?_nil, Bool.false_eq_true, if_false]
    simp only [hcb, and_false, if_false, reduceCtorEq, ite_false, hname, ne_eq,
      not_false_iff, and_self, if_true]
    simp
  · unfold handleError
    rw [hdone]
    rfl

/-- Witness for C5 (amended) at a concrete state with an empty buffer. -/
theorem toolcall_bad_args_witness :
    processChunk cfgDemo stBadBuf none (toolFinishChunk 0) =
      ((handleError stBadBuf).1, some FinishReason.tool_calls,
       (handleError stBadBuf).2, LoopControl.ret) ∧
    afterLoop cfgDemo stBadBuf none = handleError stBadBuf := by
  have h := toolcall_bad_args cfgDemo stBadBuf none 0 rfl
  exact ⟨h.1 rfl rfl (Or.inl (by decide)), h.2.1 rfl (Or.inl (by decide))⟩

/-! ## Claim C2: monotone streaming and final concatenation -/

theorem toolDeltaPhase_message_text (st : HandlerState) (choice : Choice) :
    (toolDeltaPhase st choice).1.message_text = st.message_text := by
  unfold toolDeltaPhase
  cases choice.toolCalls.head? with
  | none => rfl
  | some tc =>
    obtain ⟨i, n, a⟩ := tc
    cases i <;> cases n <;> cases a <;> rfl

theorem finishMessage_message_text (st : HandlerState) :
    (finishMessage st).1.message_text = st.message_text := by
  unfold finishMessage
  split <;> rfl

theorem handleError_message_text (st : HandlerState) :
    (handleError st).1.message_text = st.message_text := by
  unfold handleError
  split <;> rfl

theorem finishPhase_message_text (cfg : HandlerCfg) (st : HandlerState) (choice : Choice) :
    (finishPhase cfg st choice).1.message_text = st.message_text := by
  unfold finishPhase
  split
  · exact finishMessage_message_text st
  · split
    · split
      · split
        · exact handleError_message_text st
        · split
          · rfl
          · exact handleError_message_text st
      · split
        · exact finishMessage_message_text st
        · rfl
    · rfl

theorem contentPhase_mono (st : HandlerState) (choice : Choice) (now : Nat) :
    ∃ t, (contentPhase st choice now).1.message_text = st.message_text ++ t := by
  obtain ⟨tcs, cont, fin⟩ := choice
  cases cont with
  | none => exact ⟨"", by simp [contentPhase]⟩
  | some s =>
    refine ⟨s, ?_⟩
    simp only [contentPhase]
    split <;> rfl

theorem processChunk_mono (cfg : HandlerCfg) (st : HandlerState)
    (lf : Option FinishReason) (c : Chunk) :
    ∃ t, (processChunk cfg st lf c).1.message_text = st.message_text ++ t := by
  unfold processChunk
  split
  · exact ⟨"", by simp⟩
  · split
    · exact ⟨"", by simp⟩
    · next choice _ =>
      obtain ⟨t, ht⟩ := contentPhase_mono (toolDeltaPhase st choice).1 choice c.now
      refine ⟨t, ?_⟩
      show (finishPhase cfg (contentPhase (toolDeltaPhase st choice).1 choice c.now).1 choice).1.message_text = _
      rw [finishPhase_message_text, ht, toolDeltaPhase_message_text]

theorem runLoop_mono (cfg : HandlerCfg) :
    ∀ (chunks : List Chunk) (st : HandlerState) (lf : Option FinishReason),
    ∃ t, (runLoop cfg st lf chunks).1.message_text = st.message_text ++ t := by
  intro chunks
  induction chunks with
  | nil => intro st lf; exact ⟨"", by simp [runLoop]⟩
  | cons c cs ih =>
    intro st lf
    obtain ⟨t1, h1⟩ := processChunk_mono cfg st lf c
    rcases hpc : processChunk cfg st lf c with ⟨st1, lf1, e1, ctl⟩
    rw [hpc] at h1
    cases ctl with
    | next =>
      obtain ⟨t2, h2⟩ := ih st1 lf1
      refine ⟨t1 ++ t2, ?_⟩
      simp only [runLoop, hpc]
      rw [h2, h1, String.append_assoc]
    | brk =>
      refine ⟨t1, ?_⟩
      simp only [runLoop, hpc]
      exact h1
    | ret =>
      refine ⟨t1, ?_⟩
      simp only [runLoop, hpc]
      exact h1

theorem runLoop_append (cfg : HandlerCfg) (xs ys : List Chunk) :
    ∀ (st : HandlerState) (lf : Option FinishReason),
    runLoop cfg st lf (xs ++ ys) =
      (match runLoop cfg st lf xs with
       | (st1, lf1, e1, ExitStatus.finished) =>
         ((runLoop cfg st1 lf1 ys).1, (runLoop cfg st1 lf1 ys).2.1,
          e1 ++ (runLoop cfg st1 lf1 ys).2.2.1, (runLoop cfg st1 lf1 ys).2.2.2)
       | (st1, lf1, e1, ExitStatus.broke) => (st1, lf1, e1, ExitStatus.broke)
       | (st1, lf1, e1, ExitStatus.returned) => (st1, lf1, e1, ExitStatus.returned)) := by
  induction xs with
  | nil =>
    intro st lf
    simp [runLoop]
  | cons c cs ih =>
    intro st lf
    rcases hpc : processChunk cfg st lf c with ⟨st1, lf1, e1, ctl⟩
    cases ctl with
    | next =>
      show runLoop cfg st lf (c :: (cs ++ ys)) = _
      simp only [runLoop, hpc]
      rw [ih st1 lf1]
      rcases hr : runLoop cfg st1 lf1 cs with ⟨st2, lf2, e2, ex⟩
      cases ex <;> simp [hr]
    | brk =>
      show runLoop cfg st lf (c :: (cs ++ ys)) = _
      simp only [runLoop, hpc]
    | ret =>
      show runLoop cfg st lf (c :: (cs ++ ys)) = _
      simp only [runLoop, hpc]

theorem processChunk_stopChunk (cfg : HandlerCfg) (st : HandlerState)
    (lf : Option FinishReason) (t : Nat) (h : st.is_done = false) :
    processChunk cfg st lf (stopChunk t) =
      ((finishMessage st).1, some FinishReason.stop, (finishMessage st).2,
       LoopControl.brk) := by
  simp only [processChunk, stopChunk, toolDeltaPhase, contentPhase, finishPhase,
    h, List.head?_cons, List.head?_nil, Bool.false_eq_true, if_false]
  simp

theorem afterLoop_not_tool (cfg : HandlerCfg) (st : HandlerState)
    (lf : Option FinishReason) (h : st.is_tool_call = false) :
    afterLoop cfg st lf = (st, []) := by
  unfold afterLoop
  rw [if_neg, if_neg]
  · intro hx
    rw [h] at hx
    exact Bool.false_ne_true hx.1
  · intro hx
    rw [h] at hx
    exact Bool.false_ne_true hx.1

theorem runLoop_textStream (cfg : HandlerCfg) :
    ∀ (ps : List (String × Nat)) (st : HandlerState) (lf : Option FinishReason),
    st.is_done = false →
    ((runLoop cfg st lf (ps.map textChunk)).1.message_text =
       st.message_text ++ concatTexts (ps.map Prod.fst)) ∧
    (runLoop cfg st lf (ps.map textChunk)).1.is_done = false ∧
    (runLoop cfg st lf (ps.map textChunk)).1.is_tool_call = st.is_tool_call ∧
    (runLoop cfg st lf (ps.map textChunk)).2.1 = lf ∧
    (runLoop cfg st lf (ps.map textChunk)).2.2.2 = ExitStatus.finished := by
  intro ps
  induction ps with
  | nil =>
    intro st lf h
    refine ⟨?_, h, rfl, rfl, rfl⟩
    simp [runLoop, concatTexts]
  | cons p rest ih =>
    intro st lf h
    obtain ⟨s, t⟩ := p
    have hpc := processChunk_textChunk cfg st lf s t h
    rw [List.map_cons]
    by_cases hc : t - st.last_update_time > 100 ∨ (st.chunk_counter + 1) % 5 = 0
    · rw [if_pos hc] at hpc
      simp only [runLoop, hpc]
      obtain ⟨m1, m2, m3, m4, m5⟩ := ih
        { st with message_text := st.message_text ++ s,
                  chunk_counter := st.chunk_counter + 1,
                  last_update_time := t } lf h
      refine ⟨?_, m2, m3, m4, m5⟩
      rw [m1]
      show st.message_text ++ s ++ concatTexts (s :: rest.map Prod.fst |>.tail) = _
      simp [concatTexts, String.append_assoc]
    · rw [if_neg hc] at hpc
      simp only [runLoop, hpc]
      obtain ⟨m1, m2, m3, m4, m5⟩ := ih
        { st with message_text := st.message_text ++ s,
                  chunk_counter := st.chunk_counter + 1 } lf h
      refine ⟨?_, m2, m3, m4, m5⟩
      rw [m1]
      simp [concatTexts, String.append_assoc]

theorem finishMessage_not_done (st : HandlerState) (h : st.is_done = false) :
    finishMessage st =
      ({ st with is_done := true },
       [Effect.updateText st.message_text, Effect.indicator AIState.done,
        Effect.completeCallback st.message_text, Effect.disposeCallback]) := by
  unfold finishMessage
  rw [h]
  rfl

/-- Claim C2: within one run, the message text after a frame extends the text
after the previous frame (the accumulated buffer only grows); and a run over
text-only frames terminated by a `stop` finish finalizes with exactly the
concatenation of the text fragments in arrival order, passed to the
completion callback. -/
theorem streaming_monotonic (cfg : HandlerCfg) (chunks : List Chunk) (k : Nat)
    (ps : List (String × Nat)) (tEnd : Nat) :
    (∃ t, (stateAfter cfg chunks (k + 1)).message_text =
      (stateAfter cfg chunks k).message_text ++ t) ∧
    (runHandler cfg (ps.map textChunk ++ [stopChunk tEnd])).1.message_text =
      concatTexts (ps.map Prod.fst) ∧
    Effect.completeCallback (concatTexts (ps.map Prod.fst)) ∈
      (runHandler cfg (ps.map textChunk ++ [stopChunk tEnd])).2 := by
  refine ⟨?_, ?_⟩
  · unfold stateAfter
    rw [List.take_succ, runLoop_append]
    rcases hr : runLoop cfg initialHandlerState none (chunks.take k) with ⟨st1, lf1, e1, ex⟩
    cases ex with
    | finished =>
      obtain ⟨t, ht⟩ := runLoop_mono cfg (chunks[k]?.toList) st1 lf1
      exact ⟨t, ht⟩
    | broke => exact ⟨"", by simp⟩
    | returned => exact ⟨"", by simp⟩
  · obtain ⟨m1, m2, m3, m4, m5⟩ := runLoop_textStream cfg ps initialHandlerState none rfl
    unfold runHandler runFrom
    rw [runLoop_append]
    rcases hr : runLoop cfg initialHandlerState none (ps.map textChunk) with ⟨st1, lf1, e1, ex⟩
    rw [hr] at m1 m2 m3 m4 m5
    simp only at m1 m2 m3 m4 m5
    subst m5
    have hstop := processChunk_stopChunk cfg st1 lf1 tEnd m2
    have hrs : runLoop cfg st1 lf1 [stopChunk tEnd] =
        ((finishMessage st1).1, some FinishReason.stop, (finishMessage st1).2,
         ExitStatus.broke) := by
      simp only [runLoop, hstop]
    dsimp only
    rw [hrs]
    have hfin := finishMessage_not_done st1 m2
    have hitc : (finishMessage st1).1.is_tool_call = false := by
      rw [hfin]
      exact m3
    have hal := afterLoop_not_tool cfg (finishMessage st1).1 (some FinishReason.stop) hitc
    simp only [hal]
    have hmsg : st1.message_text = concatTexts (ps.map Prod.fst) := by
      rw [m1]
      simp only [initialHandlerState]
      exact String.empty_append _
    constructor
    · rw [finishMessage_message_text, hmsg]
    · rw [hfin]
      simp only [List.append_nil]
      rw [hmsg]
      simp

/-! ## Claim C1: at most one tool round-trip, two model requests per turn -/

theorem noToolCb_finishMessage (st : HandlerState) :
    ∀ e ∈ (finishMessage st).2, e.isToolCb = false := by
  intro e he
  unfold finishMessage at he
  split at he
  · simp at he
  · simp at he
    rcases he with rfl | rfl | rfl | rfl <;> rfl

theorem noToolCb_handleError (st : HandlerState) :
    ∀ e ∈ (handleError st).2, e.isToolCb = false := by
  intro e he
  unfold handleError at he
  split at he
  · simp at he
  · simp at he
    rcases he with rfl | rfl | rfl <;> rfl

theorem noToolCb_toolDeltaPhase (st : HandlerState) (choice : Choice) :
    ∀ e ∈ (toolDeltaPhase st choice).2, e.isToolCb = false := by
  intro e he
  unfold toolDeltaPhase at he
  cases h : choice.toolCalls.head? with
  | none =>
    rw [h] at he
    simp at he
  | some tc =>
    rw [h] at he
    obtain ⟨i, n, a⟩ := tc
    cases i <;> cases n <;> cases a <;> simp_all [Effect.isToolCb]

theorem noToolCb_contentPhase (st : HandlerState) (choice : Choice) (now : Nat) :
    ∀ e ∈ (contentPhase st choice now).2, e.isToolCb = false := by
  intro e he
  unfold contentPhase updateMessage at he
  cases h : choice.content with
  | none =>
    rw [h] at he
    simp at he
  | some s =>
    rw [h] at he
    split at he
    · simp at he
    · split at he
      · split at he
        · simp at he
        · simp at he
          subst he
          rfl
      · simp at he

theorem noToolCb_finishPhase (cfg : HandlerCfg) (st : HandlerState) (choice : Choice)
    (hcb : cfg.hasToolCall = false) :
    ∀ e ∈ (finishPhase cfg st choice).2.1, e.isToolCb = false := by
  intro e he
  unfold finishPhase at he
  split at he
  · exact noToolCb_finishMessage st e he
  · split at he
    · split at he
      · next h =>
        rw [hcb] at h
        exact absurd h.2 (by decide)
      · split at he
        · exact noToolCb_finishMessage st e he
        · simp at he
    · simp at he

theorem noToolCb_processChunk (cfg : HandlerCfg) (st : HandlerState)
    (lf : Option FinishReason) (c : Chunk) (hcb : cfg.hasToolCall = false) :
    ∀ e ∈ (processChunk cfg st lf c).2.2.1, e.isToolCb = false := by
  intro e he
  unfold processChunk at he
  split at he
  · simp at he
  · split at he
    · simp at he
    · next choice _ =>
      simp only [List.mem_append] at he
      rcases he with (he | he) | he
      · exact noToolCb_toolDeltaPhase st choice e he
      · exact noToolCb_contentPhase _ choice c.now e he
      · exact noToolCb_finishPhase cfg _ choice hcb e he

theorem noToolCb_afterLoop (cfg : HandlerCfg) (st : HandlerState)
    (lf : Option FinishReason) (hcb : cfg.hasToolCall = false) :
    ∀ e ∈ (afterLoop cfg st lf).2, e.isToolCb = false := by
  intro e he
  unfold afterLoop at he
  split at he
  · next h =>
    rw [hcb] at h
    exact absurd h.2.2.2 (by decide)
  · split at he
    · exact noToolCb_handleError st e he
    · simp at he

theorem noToolCb_runLoop (cfg : HandlerCfg) (hcb : cfg.hasToolCall = false) :
    ∀ (chunks : List Chunk) (st : HandlerState) (lf : Option FinishReason),
    ∀ e ∈ (runLoop cfg st lf chunks).2.2.1, e.isToolCb = false := by
  intro chunks
  induction chunks with
  | nil =>
    intro st lf e he
    simp [runLoop] at he
  | cons c cs ih =>
    intro st lf e he
    have hpcall := noToolCb_processChunk cfg st lf c hcb
    rcases hpc : processChunk cfg st lf c with ⟨st1, lf1, e1, ctl⟩
    rw [hpc] at hpcall
    simp only at hpcall
    cases ctl with
    | next =>
      simp only [runLoop, hpc] at he
      simp only [List.mem_append] at he
      rcases he with he | he
      · exact hpcall e he
      · exact ih st1 lf1 e he
    | brk =>
      simp only [runLoop, hpc] at he
      exact hpcall e he
    | ret =>
      simp only [runLoop, hpc] at he
      exact hpcall e he

theorem noToolCb_runHandler (cfg : HandlerCfg) (hcb : cfg.hasToolCall = false)
    (chunks : List Chunk) : ∀ e ∈ (runHandler cfg chunks).2, e.isToolCb = false := by
  intro e he
  unfold runHandler runFrom at he
  have hloop := noToolCb_runLoop cfg hcb chunks initialHandlerState none
  rcases hr : runLoop cfg initialHandlerState none chunks with ⟨st1, lf1, e1, ex⟩
  rw [hr] at he hloop
  simp only at hloop
  have hafter := noToolCb_afterLoop cfg st1 lf1 hcb
  cases ex with
  | finished =>
    simp only [List.mem_append] at he
    rcases he with he | he
    · exact hloop e he
    · exact hafter e he
  | broke =>
    simp only [List.mem_append] at he
    rcases he with he | he
    · exact hloop e he
    · exact hafter e he
  | returned => exact hloop e he

/-- Claim C1: in every user turn, at most 2 model requests are issued; every
request after the first carries no tool declarations; when the first pass
delegates a tool call, exactly one follow-up request (without tools) is issued
and the second handler is constructed without a tool-call callback; and a
handler without the callback can never emit a tool-call delegation, so no
turn can recurse into further tool round-trips. -/
theorem tool_roundtrip_bound (parse : String → Option String)
    (s1 s2 : List Chunk) :
    (agentTurn parse s1 s2).requests.length ≤ 2 ∧
    (∀ r ∈ (agentTurn parse s1 s2).requests.drop 1, r.hasTools = false) ∧
    (extractToolCall (runHandler { parse := parse, hasToolCall := true } s1).2 ≠ none →
      (agentTurn parse s1 s2).requests =
        [{ hasTools := true }, { hasTools := false }] ∧
      (agentTurn parse s1 s2).secondHandlerHasToolCb = some false) ∧
    (∀ cfg : HandlerCfg, cfg.hasToolCall = false →
      ∀ chunks, ∀ e ∈ (runHandler cfg chunks).2, e.isToolCb = false) := by
  refine ⟨?_, ?_, ?_, ?_⟩
  · unfold agentTurn
    dsimp only
    cases hx : extractToolCall (runHandler { parse := parse, hasToolCall := true } s1).2 with
    | none => simp
    | some v => simp
  · unfold agentTurn
    dsimp only
    cases hx : extractToolCall (runHandler { parse := parse, hasToolCall := true } s1).2 with
    | none =>
      intro r hr
      simp at hr
    | some v =>
      intro r hr
      simp at hr
      subst hr
      rfl
  · intro hd
    unfold agentTurn
    dsimp only
    cases hx : extractToolCall (runHandler { parse := parse, hasToolCall := true } s1).2 with
    | none => exact absurd hx hd
    | some v => exact ⟨rfl, rfl⟩
  · intro cfg hcb chunks
    exact noToolCb_runHandler cfg hcb chunks

/-- Witness for C1 on a concrete delegating first pass. -/
theorem tool_roundtrip_bound_witness :
    (agentTurn parseDemo delegatingStream []).requests =
      [{ hasTools := true }, { hasTools := false }] ∧
    (agentTurn parseDemo delegatingStream []).secondHandlerHasToolCb = some false ∧
    Effect.toolCallCallback "web_search" "q" "id1" ∈
      (runHandler { parse := parseDemo, hasToolCall := true } delegatingStream).2 := by
  have h := (tool_roundtrip_bound parseDemo delegatingStream []).2.2.1 (by decide)
  exact ⟨h.1, h.2, by decide⟩

/-! ## Claim C8: conversation history invariants -/

/-- Counterexample to C8 as stated: appending an inbound user message to a
21-entry history leaves 22 entries — the cap is not applied on user-message
appends, so "whenever the length exceeds 21 the history is truncated" fails
right after this append operation. -/
theorem history_cap_cex :
    (pushUser demo21 "next").length = 22 ∧
    ¬((pushUser demo21 "next").length ≤ 21) := by
  constructor
  · simp [pushUser, demo21]
  · simp [pushUser, demo21]

/-- Claim C8 (amended): element 0 always remains the system prompt — it is
preserved by user-message appends, tool-result appends and capped assistant
appends, and rewritten in place (same position, same role) by a writing-task
update; the 21-entry cap is applied only by the assistant-append completion
callback: there, a history exceeding 21 entries is truncated to the system
message followed by the 20 most recent entries, while user-message appends
leave the length uncapped until the turn completes. -/
theorem history_head_and_cap (m0 : ChatMessage) (hs : List ChatMessage)
    (m task q r a : String) :
    (pushUser (m0 :: hs) m).head? = some m0 ∧
    (pushSearchResults (m0 :: hs) q r).head? = some m0 ∧
    applyWritingTask (m0 :: hs) task = { m0 with content := task } :: hs ∧
    (onCompleteAppend (m0 :: hs) a).head? = some m0 ∧
    ((m0 :: hs).length ≥ 21 → (onCompleteAppend (m0 :: hs) a).length = 21) ∧
    ((m0 :: hs).length < 21 →
      onCompleteAppend (m0 :: hs) a =
        (m0 :: hs) ++ [{ role := Role.assistant, content := a }]) ∧
    (pushUser (m0 :: hs) m).length = (m0 :: hs).length + 1 := by
  refine ⟨by simp [pushUser], by simp [pushSearchResults], rfl, ?_, ?_, ?_, by simp [pushUser]⟩
  · unfold onCompleteAppend capHistory
    rw [List.cons_append]
    split
    · simp
    · simp
  · intro hL
    unfold onCompleteAppend capHistory
    rw [List.cons_append]
    rw [if_pos]
    · simp only [List.length_cons, List.length_drop, List.length_append]
      simp at hL ⊢
      omega
    · simp at hL ⊢
      omega
  · intro hL
    unfold onCompleteAppend capHistory
    rw [List.cons_append]
    have hc : ¬((m0 :: (hs ++ [{ role := Role.assistant, content := a }])).length > 21) := by
      simp at hL ⊢
      omega
    rw [if_neg hc]

/-- Witness for C8 (amended) at concrete histories of length 21 and 1. -/
theorem history_head_and_cap_witness :
    (onCompleteAppend demo21 "a").length = 21 ∧
    onCompleteAppend [{ role := Role.system, content := "p" }] "a" =
      [{ role := Role.system, content := "p" }, { role := Role.assistant, content := "a" }] ∧
    (pushUser demo21 "next").head? = some { role := Role.system, content := "p" } := by
  have h1 := history_head_and_cap { role := Role.system, content := "p" }
    ((List.range 20).map (fun i => { role := Role.user, content := toString i }))
    "next" "t" "q" "r" "a"
  have h2 := history_head_and_cap { role := Role.system, content := "p" }
    ([] : List ChatMessage) "next" "t" "q" "r" "a"
  refine ⟨h1.2.2.2.2.1 (by simp), h2.2.2.2.2.2.1 (by simp), h1.1⟩

/-! ## Claim C9: registry uniqueness under interleaving -/

theorem updateCases {f : Nat → ReqPC} {i j : Nat} {v w : ReqPC}
    (h : Function.update f i v j = w) :
    (j = i ∧ v = w) ∨ (j ≠ i ∧ f j = w) := by
  by_cases hji : j = i
  · subst hji
    rw [Function.update_same] at h
    exact Or.inl ⟨rfl, h⟩
  · rw [Function.update_noteq hji] at h
    exact Or.inr ⟨hji, h⟩

theorem regInv_init : RegInv regInit := by
  refine ⟨?_, ?_, ?_, ?_, ?_, ?_, ?_, ?_, ?_, ?_⟩ <;> intros <;> simp_all [regInit, RegInv]

theorem regInv_step {s s' : RegSys} (hstep : RegStep s s') (hinv : RegInv s) : RegInv s' := by
  obtain ⟨I1, I2, I3, I4, I5, I6, I7, I8, I9, I10⟩ := hinv
  cases hstep with
  | checkBusy i h hb =>
    refine ⟨I1, I2, ?_, I4, ?_, ?_, ?_, ?_, ?_, ?_⟩
    · intro j a hj
      rcases updateCases hj with ⟨rfl, hv⟩ | ⟨_, hold⟩
      · simp at hv
      · exact I3 j a hold
    · intro j a b hj hcache
      rcases updateCases hj with ⟨rfl, hv⟩ | ⟨_, hold⟩
      · simp at hv
      · exact I5 j a b hold hcache
    · intro j a hj
      rcases updateCases hj with ⟨rfl, hv⟩ | ⟨_, hold⟩
      · simp at hv
      · exact I6 j a hold
    · intro j k a b hjk hj hk
      rcases updateCases hj with ⟨rfl, hv⟩ | ⟨_, hj'⟩
      · simp at hv
      · rcases updateCases hk with ⟨rfl, hv⟩ | ⟨_, hk'⟩
        · simp at hv
        · exact I7 j k a b hjk hj' hk'
    · intro j a hj
      rcases hj with hj | hj
      · rcases updateCases hj with ⟨rfl, hv⟩ | ⟨_, hold⟩
        · simp at hv
        · exact I8 j a (Or.inl hold)
      · rcases updateCases hj with ⟨rfl, hv⟩ | ⟨_, hold⟩
        · simp at hv
        · exact I8 j a (Or.inr hold)
    · intro j a hj
      rcases hj with hj | hj
      · rcases updateCases hj with ⟨rfl, hv⟩ | ⟨_, hold⟩
        · simp at hv
        · exact I9 j a (Or.inl hold)
      · rcases updateCases hj with ⟨rfl, hv⟩ | ⟨_, hold⟩
        · simp at hv
        · exact I9 j a (Or.inr hold)
    · intro hp
      obtain ⟨k, hk⟩ := I10 hp
      have hki : k ≠ i := by
        intro he
        subst he
        rw [h] at hk
        rcases hk with h' | ⟨a, h'⟩ | ⟨o, h'⟩ <;> simp at h'
      refine ⟨k, ?_⟩
      dsimp only
      rw [Function.update_noteq hki]
      exact hk
  | checkFree i h hc hp =>
    refine ⟨I1, I2, ?_, I4, ?_, ?_, ?_, ?_, ?_, ?_⟩
    · intro j a hj
      rcases updateCases hj with ⟨rfl, hv⟩ | ⟨_, hold⟩
      · simp at hv
      · exact I3 j a hold
    · intro j a b hj hcache
      rcases updateCases hj with ⟨rfl, hv⟩ | ⟨_, hold⟩
      · simp at hv
      · exact I5 j a b hold hcache
    · intro j a hj
      rcases updateCases hj with ⟨rfl, hv⟩ | ⟨_, hold⟩
      · simp at hv
      · exact I6 j a hold
    · intro j k a b hjk hj hk
      rcases updateCases hj with ⟨rfl, hv⟩ | ⟨_, hj'⟩
      · simp at hv
      · rcases updateCases hk with ⟨rfl, hv⟩ | ⟨_, hk'⟩
        · simp at hv
        · exact I7 j k a b hjk hj' hk'
    · intro j a hj
      rcases hj with hj | hj
      · rcases updateCases hj with ⟨rfl, hv⟩ | ⟨_, hold⟩
        · simp at hv
        · exact I8 j a (Or.inl hold)
      · rcases updateCases hj with ⟨rfl, hv⟩ | ⟨_, hold⟩
        · simp at hv
        · exact I8 j a (Or.inr hold)
    · intro j a hj
      rcases hj with hj | hj
      · rcases updateCases hj with ⟨rfl, hv⟩ | ⟨_, hold⟩
        · simp at hv
        · exact I9 j a (Or.inl hold)
      · rcases updateCases hj with ⟨rfl, hv⟩ | ⟨_, hold⟩
        · simp at hv
        · exact I9 j a (Or.inr hold)
    · intro _
      exact ⟨i, Or.inl (Function.update_same i ReqPC.working s.reqs)⟩
  | initOk i h =>
    refine ⟨?_, ?_, ?_, I4, ?_, ?_, ?_, ?_, ?_, ?_⟩
    · intro a ha
      exact Nat.lt_succ_of_lt (I1 a ha)
    · intro a ha
      exact Nat.lt_succ_of_lt (I2 a ha)
    · intro j a hj
      rcases updateCases hj with ⟨rfl, hv⟩ | ⟨_, hold⟩
      · cases hv
        exact Nat.lt_succ_self _
      · exact Nat.lt_succ_of_lt (I3 j a hold)
    · intro j a b hj hcache
      rcases updateCases hj with ⟨rfl, hv⟩ | ⟨_, hold⟩
      · cases hv
        exact fun he => absurd (he ▸ I1 b hcache) (Nat.lt_irrefl _)
      · exact I5 j a b hold hcache
    · intro j a hj
      rcases updateCases hj with ⟨rfl, hv⟩ | ⟨_, hold⟩
      · cases hv
        intro hmem
        exact absurd (I2 _ hmem) (Nat.lt_irrefl _)
      · exact I6 j a hold
    · intro j k a b hjk hj hk
      rcases updateCases hj with ⟨rfl, hv⟩ | ⟨hji, hj'⟩
      · cases hv
        rcases updateCases hk with ⟨rfl, hv2⟩ | ⟨hki, hk'⟩
        · exact absurd rfl hjk
        · exact fun he => absurd (he ▸ I3 k b hk') (Nat.lt_irrefl _)
      · rcases updateCases hk with ⟨rfl, hv2⟩ | ⟨hki, hk'⟩
        · cases hv2
          exact fun he => absurd (he ▸ I3 j a hj') (Nat.lt_irrefl _)
        · exact I7 j k a b hjk hj' hk'
    · intro j a hj
      rcases hj with hj | hj
      · rcases updateCases hj with ⟨rfl, hv⟩ | ⟨_, hold⟩
        · simp at hv
        · exact I8 j a (Or.inl hold)
      · rcases updateCases hj with ⟨rfl, hv⟩ | ⟨_, hold⟩
        · simp at hv
        · exact I8 j a (Or.inr hold)
    · intro j a hj
      rcases hj with hj | hj
      · rcases updateCases hj with ⟨rfl, hv⟩ | ⟨_, hold⟩
        · simp at hv
        · exact I9 j a (Or.inl hold)
      · rcases updateCases hj with ⟨rfl, hv⟩ | ⟨_, hold⟩
        · simp at hv
        · exact I9 j a (Or.inr hold)
    · intro hp
      obtain ⟨k, hk⟩ := I10 hp
      by_cases hki : k = i
      · subst hki
        exact ⟨k, Or.inr (Or.inl ⟨s.nextId, Function.update_same k _ s.reqs⟩)⟩
      · refine ⟨k, ?_⟩
        dsimp only
        rw [Function.update_noteq hki]
        exact hk
  | initFail i h =>
    refine ⟨I1, I2, ?_, I4, ?_, ?_, ?_, ?_, ?_, ?_⟩
    · intro j a hj
      rcases updateCases hj with ⟨rfl, hv⟩ | ⟨_, hold⟩
      · simp at hv
      · exact I3 j a hold
    · intro j a b hj hcache
      rcases updateCases hj with ⟨rfl, hv⟩ | ⟨_, hold⟩
      · simp at hv
      · exact I5 j a b hold hcache
    · intro j a hj
      rcases updateCases hj with ⟨rfl, hv⟩ | ⟨_, hold⟩
      · simp at hv
      · exact I6 j a hold
    · intro j k a b hjk hj hk
      rcases updateCases hj with ⟨rfl, hv⟩ | ⟨_, hj'⟩
      · simp at hv
      · rcases updateCases hk with ⟨rfl, hv⟩ | ⟨_, hk'⟩
        · simp at hv
        · exact I7 j k a b hjk hj' hk'
    · intro j a hj
      rcases hj with hj | hj
      · rcases updateCases hj with ⟨rfl, hv⟩ | ⟨_, hold⟩
        · simp at hv
        · exact I8 j a (Or.inl hold)
      · rcases updateCases hj with ⟨rfl, hv⟩ | ⟨_, hold⟩
        · simp at hv
        · exact I8 j a (Or.inr hold)
    · intro j a hj
      rcases hj with hj | hj
      · rcases updateCases hj with ⟨rfl, hv⟩ | ⟨_, hold⟩
        · simp at hv
        · exact I9 j a (Or.inl hold)
      · rcases updateCases hj with ⟨rfl, hv⟩ | ⟨_, hold⟩
        · simp at hv
        · exact I9 j a (Or.inr hold)
    · intro hp
      obtain ⟨k, hk⟩ := I10 hp
      by_cases hki : k = i
      · subst hki
        exact ⟨k, Or.inr (Or.inr ⟨Outcome.failed, Function.update_same k _ s.reqs⟩)⟩
      · refine ⟨k, ?_⟩
        dsimp only
        rw [Function.update_noteq hki]
        exact hk
  | finalInstall i a h hc =>
    refine ⟨?_, I2, ?_, ?_, ?_, ?_, ?_, ?_, ?_, ?_⟩
    · intro b hb
      cases hb
      exact I3 i a h
    · intro j b hj
      rcases updateCases hj with ⟨rfl, hv⟩ | ⟨_, hold⟩
      · simp at hv
      · exact I3 j b hold
    · intro b hb
      cases hb
      exact I6 i a h
    · intro j c b' hj hcache
      have hb : a = b' := by
        injection hcache
      subst hb
      rcases updateCases hj with ⟨_, hv⟩ | ⟨hji, hold⟩
      · simp at hv
      · exact I7 j i c a hji hold h
    · intro j b hj
      rcases updateCases hj with ⟨rfl, hv⟩ | ⟨_, hold⟩
      · simp at hv
      · exact I6 j b hold
    · intro j k c b hjk hj hk
      rcases updateCases hj with ⟨rfl, hv⟩ | ⟨_, hj'⟩
      · simp at hv
      · rcases updateCases hk with ⟨rfl, hv⟩ | ⟨_, hk'⟩
        · simp at hv
        · exact I7 j k c b hjk hj' hk'
    · intro j b hj
      rcases hj with hj | hj
      · rcases updateCases hj with ⟨rfl, hv⟩ | ⟨_, hold⟩
        · cases hv
          rfl
        · have := I8 j b (Or.inl hold)
          rw [hc] at this
          simp at this
      · rcases updateCases hj with ⟨rfl, hv⟩ | ⟨_, hold⟩
        · simp at hv
        · have := I8 j b (Or.inr hold)
          rw [hc] at this
          simp at this
    · intro j b hj
      rcases hj with hj | hj
      · rcases updateCases hj with ⟨rfl, hv⟩ | ⟨_, hold⟩
        · simp at hv
        · have := I9 j b (Or.inl hold)
          rw [hc] at this
          simp at this
      · rcases updateCases hj with ⟨rfl, hv⟩ | ⟨_, hold⟩
        · simp at hv
        · have := I9 j b (Or.inr hold)
          rw [hc] at this
          simp at this
    · intro hp
      obtain ⟨k, hk⟩ := I10 hp
      by_cases hki : k = i
      · subst hki
        exact ⟨k, Or.inr (Or.inr ⟨Outcome.installed a, Function.update_same k _ s.reqs⟩)⟩
      · refine ⟨k, ?_⟩
        dsimp only
        rw [Function.update_noteq hki]
        exact hk
  | finalRedundant i a b h hc =>
    refine ⟨I1, ?_, ?_, ?_, ?_, ?_, ?_, ?_, ?_, ?_⟩
    · intro x hx
      rcases List.mem_cons.mp hx with rfl | hx
      · exact I3 i x h
      · exact I2 x hx
    · intro j c hj
      rcases updateCases hj with ⟨rfl, hv⟩ | ⟨_, hold⟩
      · simp at hv
      · exact I3 j c hold
    · intro c hcache
      intro hmem
      rcases List.mem_cons.mp hmem with rfl | hmem
      · exact I5 i c c h hcache rfl
      · exact I4 c hcache hmem
    · intro j c d hj hcache
      rcases updateCases hj with ⟨rfl, hv⟩ | ⟨_, hold⟩
      · simp at hv
      · exact I5 j c d hold hcache
    · intro j c hj
      rcases updateCases hj with ⟨rfl, hv⟩ | ⟨hji, hold⟩
      · simp at hv
      · intro hmem
        rcases List.mem_cons.mp hmem with rfl | hmem
        · exact I7 j i c c hji hold h rfl
        · exact I6 j c hold hmem
    · intro j k c d hjk hj hk
      rcases updateCases hj with ⟨rfl, hv⟩ | ⟨_, hj'⟩
      · simp at hv
      · rcases updateCases hk with ⟨rfl, hv⟩ | ⟨_, hk'⟩
        · simp at hv
        · exact I7 j k c d hjk hj' hk'
    · intro j c hj
      rcases hj with hj | hj
      · rcases updateCases hj with ⟨rfl, hv⟩ | ⟨_, hold⟩
        · simp at hv
        · exact I8 j c (Or.inl hold)
      · rcases updateCases hj with ⟨rfl, hv⟩ | ⟨_, hold⟩
        · simp at hv
        · exact I8 j c (Or.inr hold)
    · intro j c hj
      rcases hj with hj | hj
      · rcases updateCases hj with ⟨_, hv⟩ | ⟨_, hold⟩
        · have hca : c = a := by
            injection hv with hv'
            injection hv' with hv''
            exact hv''.symm
          subst hca
          refine ⟨List.mem_cons_self _ _, ?_, by dsimp only; rw [hc]; rfl⟩
          intro he
          have he2 : s.cache = some c := he
          rw [hc] at he2
          injection he2 with he'
          exact I5 i c b h hc he'.symm
        · obtain ⟨hm, hne, hs⟩ := I9 j c (Or.inl hold)
          exact ⟨List.mem_cons_of_mem _ hm, hne, hs⟩
      · rcases updateCases hj with ⟨rfl, hv⟩ | ⟨_, hold⟩
        · simp at hv
        · obtain ⟨hm, hne, hs⟩ := I9 j c (Or.inr hold)
          exact ⟨List.mem_cons_of_mem _ hm, hne, hs⟩
    · intro hp
      obtain ⟨k, hk⟩ := I10 hp
      by_cases hki : k = i
      · subst hki
        exact ⟨k, Or.inr (Or.inr ⟨Outcome.redundant a, Function.update_same k _ s.reqs⟩)⟩
      · refine ⟨k, ?_⟩
        dsimp only
        rw [Function.update_noteq hki]
        exact hk
  | clearPending i o h =>
    refine ⟨I1, I2, ?_, I4, ?_, ?_, ?_, ?_, ?_, ?_⟩
    · intro j a hj
      rcases updateCases hj with ⟨rfl, hv⟩ | ⟨_, hold⟩
      · simp at hv
      · exact I3 j a hold
    · intro j a b hj hcache
      rcases updateCases hj with ⟨rfl, hv⟩ | ⟨_, hold⟩
      · simp at hv
      · exact I5 j a b hold hcache
    · intro j a hj
      rcases updateCases hj with ⟨rfl, hv⟩ | ⟨_, hold⟩
      · simp at hv
      · exact I6 j a hold
    · intro j k a b hjk hj hk
      rcases updateCases hj with ⟨rfl, hv⟩ | ⟨_, hj'⟩
      · simp at hv
      · rcases updateCases hk with ⟨rfl, hv⟩ | ⟨_, hk'⟩
        · simp at hv
        · exact I7 j k a b hjk hj' hk'
    · intro j a hj
      rcases hj with hj | hj
      · rcases updateCases hj with ⟨rfl, hv⟩ | ⟨_, hold⟩
        · simp at hv
        · exact I8 j a (Or.inl hold)
      · rcases updateCases hj with ⟨rfl, hv⟩ | ⟨_, hold⟩
        · cases hv
          exact I8 j a (Or.inl h)
        · exact I8 j a (Or.inr hold)
    · intro j a hj
      rcases hj with hj | hj
      · rcases updateCases hj with ⟨rfl, hv⟩ | ⟨_, hold⟩
        · simp at hv
        · exact I9 j a (Or.inl hold)
      · rcases updateCases hj with ⟨rfl, hv⟩ | ⟨_, hold⟩
        · cases hv
          exact I9 j a (Or.inl h)
        · exact I9 j a (Or.inr hold)
    · intro hp
      simp at hp

theorem regInv_reachable {s : RegSys} (h : RegReachable s) : RegInv s := by
  unfold RegReachable at h
  induction h with
  | refl => exact regInv_init
  | tail _ hstep ih => exact regInv_step hstep ih

/-- Counterexample to C9 as stated: request 0 marks the key pending and is
still initializing; request 1 observes the pending marker and takes the
"no-op" branch — but its `finally` block still deletes the pending marker, so
after request 1 completes the registry's pending flag is false while request 0
is mid-flight.  The claimed "a request is a no-op when an entry exists or is
pending" is false: the no-op request mutates the registry. -/
theorem registry_noop_cex :
    RegReachable cexS3 ∧ cexS1.pending = true ∧ cexS3.pending = false ∧
    cexS3.reqs 0 = ReqPC.working ∧ cexS3.reqs 1 = ReqPC.done Outcome.noop := by
  refine ⟨?_, rfl, rfl, rfl, rfl⟩
  exact Relation.ReflTransGen.tail
    (Relation.ReflTransGen.tail
      (Relation.ReflTransGen.single (RegStep.checkFree regInit 0 rfl rfl rfl))
      (RegStep.checkBusy cexS1 1 rfl (Or.inr rfl)))
    (RegStep.clearPending cexS2 1 Outcome.noop rfl)

/-- Claim C9 (amended): in every reachable state of every interleaving of
start-agent requests for one key, at most one live agent is ever installed
(all requests that completed with an installed agent installed the same one,
which sits in the cache and was never disposed), every redundant
concurrently-initialized instance was disposed and never installed, and once
every request has completed the pending marker is cleared; however, a request
that takes the no-op branch still clears the pending marker in its `finally`
block (so it is not a pure no-op — see the counterexample). -/
theorem registry_uniqueness (s : RegSys) (hr : RegReachable s) :
    (∀ i j a b, s.reqs i = ReqPC.done (Outcome.installed a) →
      s.reqs j = ReqPC.done (Outcome.installed b) → a = b) ∧
    (∀ i a, s.reqs i = ReqPC.done (Outcome.installed a) →
      s.cache = some a ∧ a ∉ s.disposed) ∧
    (∀ i a, s.reqs i = ReqPC.done (Outcome.redundant a) →
      a ∈ s.disposed ∧ s.cache ≠ some a) ∧
    ((∀ i, s.reqs i = ReqPC.idle ∨ ∃ o, s.reqs i = ReqPC.done o) →
      s.pending = false) := by
  obtain ⟨I1, I2, I3, I4, I5, I6, I7, I8, I9, I10⟩ := regInv_reachable hr
  refine ⟨?_, ?_, ?_, ?_⟩
  · intro i j a b hi hj
    have ha := I8 i a (Or.inr hi)
    have hb := I8 j b (Or.inr hj)
    rw [ha] at hb
    exact Option.some.inj hb
  · intro i a hi
    have ha := I8 i a (Or.inr hi)
    exact ⟨ha, I4 a ha⟩
  · intro i a hi
    obtain ⟨hm, hne, _⟩ := I9 i a (Or.inr hi)
    exact ⟨hm, hne⟩
  · intro hall
    cases hpv : s.pending
    · rfl
    · obtain ⟨k, hk⟩ := I10 hpv
      rcases hall k with hid | ⟨o, hdone⟩
      · rw [hid] at hk
        rcases hk with h' | ⟨a, h'⟩ | ⟨o, h'⟩ <;> simp at h'
      · rw [hdone] at hk
        rcases hk with h' | ⟨a, h'⟩ | ⟨o', h'⟩ <;> simp at h'

/-- Witness for C9 (amended): in the initial (quiescent) state no pending
marker is set. -/
theorem registry_uniqueness_witness : regInit.pending = false :=
  (registry_uniqueness regInit Relation.ReflTransGen.refl).2.2.2
    (fun _ => Or.inl rfl)
